import Mathlib

/-
Shallow embedding of the fin-data background job service (src/app).
Python dicts of string keys and string values are modelled as ordered
association lists with Python insertion-order update semantics; machine
integers from the config are modelled as Int; datetimes are abstracted
to Nat tick values; the HTTP layer is abstracted by per-attempt outcome
oracles (an attempt either yields a decoded body or a failure message,
exactly the granularity at which src/app/jobs.py observes it).
-/

namespace FinData

/-- A Python dict with string keys and values: ordered association list,
keys unique in any value that models a real dict. -/
abbrev Dict := List (String × String)

/-- Python dict membership lookup: first entry with the given key. -/
def dlookup : Dict → String → Option String
  | [], _ => none
  | (k, v) :: rest, key => if k = key then some v else dlookup rest key

/-- Python dict item assignment: replace the value in place if the key is
present (position preserved), append otherwise. -/
def dictInsert : Dict → String → String → Dict
  | [], k, v => [(k, v)]
  | (k2, v2) :: rest, k, v =>
      if k2 = k then (k2, v) :: rest else (k2, v2) :: dictInsert rest k v

/-- Python dict.update: apply the item assignments of the second dict to
the first, in order. -/
def dictUpdate (d e : Dict) : Dict :=
  e.foldl (fun acc kv => dictInsert acc kv.1 kv.2) d

/-- ApiConfig dataclass from src/app/config.py. -/
structure ApiConfig where
  name : String
  url : String
  method : String
  interval_seconds : Int
  max_retries : Int
  retry_backoff_seconds : Int
  timeout_seconds : Int
  target_url : Option String
  enabled : Bool
  query_params : Option Dict
  deriving DecidableEq

/-- AppConfig dataclass from src/app/config.py. -/
structure AppConfig where
  apis : List ApiConfig
  deriving DecidableEq

/-- Python truthiness of an optional dict: None and the empty dict are
falsy. -/
def truthyDict : Option Dict → Bool
  | none => false
  | some d => !d.isEmpty

/-- Lines 123 to 129 of src/app/jobs.py: the params local of
_fetch_with_retry. Start from None; if the static query_params are truthy
take a copy of them; if the extra params are truthy, update (params or
the empty dict) with them. -/
def effectiveParams (qp extra : Option Dict) : Option Dict :=
  let params : Option Dict := if truthyDict qp then some (qp.getD []) else none
  if truthyDict extra then some (dictUpdate (params.getD []) (extra.getD []))
  else params

/-- Observable events of one _fetch_with_retry call: a request issued for
attempt number i carrying the effective query params, or a backoff sleep
of a given duration in seconds. -/
inductive FetchEvent where
  | attempt (i : Nat) (params : Option Dict)
  | sleep (d : Int)
  deriving DecidableEq

/-- Result of _fetch_with_retry: a decoded body, the re-raise of the last
recorded failure after all attempts failed (line 154), or the failure of
the `assert last_error is not None` on line 153. -/
inductive FetchResult (α : Type) where
  | ok (v : α)
  | exhausted (lastCause : String)
  | assertFailed
  deriving DecidableEq

/-- The attempt loop of _fetch_with_retry (lines 131 to 154). att is the
current 1-based attempt number, fuel the number of attempts left (the
call site passes att = 1 and fuel = maxRetries, so att + fuel =
maxRetries + 1 throughout), le the last_error local. On a failing attempt
the loop records the cause and sleeps for the backoff only when
att < maxRetries. -/
def fetchAux (outcome : Nat → Except String α) (p : Option Dict) (b : Int)
    (maxRetries : Nat) :
    Nat → Nat → Option String → List FetchEvent × FetchResult α
  | _, 0, le =>
      ([], match le with
           | some e => .exhausted e
           | none => .assertFailed)
  | att, fuel + 1, _ =>
      match outcome att with
      | .ok v => ([.attempt att p], .ok v)
      | .error e =>
          let rest := fetchAux outcome p b maxRetries (att + 1) fuel (some e)
          if att < maxRetries then
            (.attempt att p :: .sleep b :: rest.1, rest.2)
          else
            (.attempt att p :: rest.1, rest.2)

/-- _fetch_with_retry from src/app/jobs.py: merge the params, then run the
attempt loop for range(1, max_retries + 1). The per-attempt outcome
oracle stands for the HTTP request plus raise_for_status plus json
decoding; any of those failing is one failing attempt. -/
def fetch_with_retry (cfg : ApiConfig) (outcome : Nat → Except String α)
    (extra : Option Dict) : List FetchEvent × FetchResult α :=
  fetchAux outcome (effectiveParams cfg.query_params extra)
    cfg.retry_backoff_seconds cfg.max_retries.toNat 1 cfg.max_retries.toNat none

/-- Attempt numbers of a trace, in order. -/
def attemptsOf (tr : List FetchEvent) : List Nat :=
  tr.filterMap fun e =>
    match e with
    | .attempt i _ => some i
    | .sleep _ => none

/-- Sleep durations of a trace, in order. -/
def sleepsOf (tr : List FetchEvent) : List Int :=
  tr.filterMap fun e =>
    match e with
    | .attempt _ _ => none
    | .sleep d => some d

/-- The strictly alternating trace of n requests starting at attempt s,
with one sleep of duration b between each consecutive pair of attempts
and none after the last. -/
def altTrace (p : Option Dict) (b : Int) : Nat → Nat → List FetchEvent
  | _, 0 => []
  | s, n + 1 =>
      .attempt s p :: (if n = 0 then [] else .sleep b :: altTrace p b (s + 1) n)

/-- ApiJobState from src/app/jobs.py: per-job run status record. Datetimes
are abstracted to Nat tick values. -/
structure ApiJobState where
  last_run : Option Nat
  last_success : Option Nat
  last_error : Option String
  run_count : Nat
  deriving DecidableEq

/-- The freshly zeroed ApiJobState created by JobManager.start. -/
def ApiJobState.init : ApiJobState :=
  { last_run := none, last_success := none, last_error := none, run_count := 0 }

/-- The try block of one _run_loop iteration (lines 85 to 105 of
src/app/jobs.py): fetch with retry, then the registered processor if any,
then the POST to the target if one is configured. Each stage can raise;
str of the raised exception is what the except arm stores. The str of a
bare failed assert is the empty string. -/
def runTry (fetchR : FetchResult α) (proc : Option (α → Except String α))
    (target : Option String) (fwd : Except String Unit) : Except String Unit :=
  match fetchR with
  | .exhausted e => .error e
  | .assertFailed => .error ""
  | .ok data =>
      match (match proc with
             | some f => f data
             | none => .ok data) with
      | .error m => .error m
      | .ok _payload =>
          match target with
          | some _ => fwd
          | none => .ok ()

/-- One iteration of the while loop of _run_loop over the job state
(lines 81 to 108 of src/app/jobs.py): set last_run to the iteration start
tick, increment run_count, then either record full success (last_success
set to the later tick now2, last_error cleared) or record the failure
message, leaving last_success alone. The final interval sleep does not
touch the state. -/
def run_loop_body (st : ApiJobState) (now1 : Nat) (tryR : Except String Unit)
    (now2 : Nat) : ApiJobState :=
  let st1 := { st with last_run := some now1, run_count := st.run_count + 1 }
  match tryR with
  | .ok _ => { st1 with last_success := some now2, last_error := none }
  | .error m => { st1 with last_error := some m }

/-- The JobManager state dict: job name to ApiJobState. -/
abbrev StateMap := List (String × ApiJobState)

/-- dict.get on the state map. -/
def smLookup : StateMap → String → Option ApiJobState
  | [], _ => none
  | (k, v) :: rest, key => if k = key then some v else smLookup rest key

/-- In-place mutation of the state object held under a key: replace the
value of the first entry with that key. -/
def smSet : StateMap → String → ApiJobState → StateMap
  | [], _, _ => []
  | (k, v) :: rest, key, st =>
      if k = key then (k, st) :: rest else (k, v) :: smSet rest key st

/-- The JSON responses the run-once route handler can produce, plus the
uncaught propagation of a processor exception (the processor call on
line 136 of src/app/main.py sits outside every try). -/
inductive RunOnceResult where
  | notFound (msg : String)
  | fetchError (msg : String)
  | uncaughtTransform (msg : String)
  | forwardError (msg : String)
  | ok
  deriving DecidableEq

/-- run_job_once from src/app/main.py (lines 95 to 169): look the job up
by name only (the enabled flag is not consulted), 404 when absent, fetch
with retry passing the extra params, 502 on fetch failure, apply the
registered processor, POST to the target if configured (502 with a
distinct message on failure), and on full success update the state entry
for the job if one exists. -/
def run_job_once (apis : List ApiConfig) (sm : StateMap) (jobName : String)
    (extra : Option Dict) (outcome : Nat → Except String α)
    (proc : Option (α → Except String α)) (fwd : Except String Unit)
    (now : Nat) : RunOnceResult × StateMap :=
  match apis.find? (fun a => a.name == jobName) with
  | none => (.notFound ("Job \x27" ++ jobName ++ "\x27 not found"), sm)
  | some cfg =>
      match (fetch_with_retry cfg outcome extra).2 with
      | .exhausted e => (.fetchError e, sm)
      | .assertFailed => (.fetchError "", sm)
      | .ok data =>
          match (match proc with
                 | some f => f data
                 | none => .ok data) with
          | .error m => (.uncaughtTransform m, sm)
          | .ok _payload =>
              let finish : RunOnceResult × StateMap :=
                match smLookup sm cfg.name with
                | some st =>
                    (.ok, smSet sm cfg.name
                      { st with last_run := some now, last_success := some now,
                                last_error := none, run_count := st.run_count + 1 })
                | none => (.ok, sm)
              match cfg.target_url with
              | some _ =>
                  match fwd with
                  | .error e => (.forwardError ("Error sending to target: " ++ e), sm)
                  | .ok _ => finish
              | none => finish

/-- One entry of the run-all report (lines 197 to 204 of src/app/main.py). -/
structure ReportEntry where
  name : String
  url : String
  status : String
  error : Option String
  deriving DecidableEq

/-- The try and except arms of the run-all loop body: an ok entry on fetch
success, an error entry carrying str of the raised exception otherwise. -/
def reportEntryFor (a : ApiConfig) (r : FetchResult α) : ReportEntry :=
  match r with
  | .ok _ => { name := a.name, url := a.url, status := "ok", error := none }
  | .exhausted e => { name := a.name, url := a.url, status := "error", error := some e }
  | .assertFailed => { name := a.name, url := a.url, status := "error", error := some "" }

/-- The for loop of run_all_jobs_once (lines 182 to 204 of
src/app/main.py) with its results accumulator: disabled jobs are skipped
with continue, every other job is fetched with retry and no extra params,
and the state map is never touched. -/
def runAllGo (sm : StateMap) (outcomes : String → Nat → Except String α) :
    List ApiConfig → List ReportEntry → StateMap × List ReportEntry
  | [], results => (sm, results)
  | a :: rest, results =>
      if a.enabled then
        runAllGo sm outcomes rest
          (results ++ [reportEntryFor a (fetch_with_retry a (outcomes a.name) none).2])
      else
        runAllGo sm outcomes rest results

/-- run_all_jobs_once from src/app/main.py (lines 175 to 209). -/
def run_all_jobs_once (apis : List ApiConfig) (sm : StateMap)
    (outcomes : String → Nat → Except String α) : StateMap × List ReportEntry :=
  runAllGo sm outcomes apis []

/-- One well-typed entry of the apis list of the YAML config file, each
field either absent or present with the type the loader coerces it to.
YAML parsing itself and dynamically ill-typed values (a non-dict entry or
non-dict query_params) are abstracted away: they only produce earlier
load errors and touch no invariant. -/
structure RawEntry where
  name : Option String
  url : Option String
  method : Option String
  interval_seconds : Option Int
  max_retries : Option Int
  retry_backoff_seconds : Option Int
  timeout_seconds : Option Int
  target_url : Option String
  enabled : Option Bool
  query_params : Option Dict
  deriving DecidableEq

/-- Python truthiness of an optional string: None and the empty string
are falsy. -/
def truthyStr : Option String → Bool
  | none => false
  | some s => !s.isEmpty

/-- ASCII model of the Python str.upper used on the method field. -/
def strUpper (s : String) : String :=
  ⟨s.data.map Char.toUpper⟩

/-- The per-entry body of the loader loop (lines 46 to 81 of
src/app/config.py): require a truthy name and url, then build the
ApiConfig applying the documented defaults. -/
def loadEntry (e : RawEntry) : Except String ApiConfig :=
  if !truthyStr e.name then
    .error "Each API config must have a \x27name\x27 field."
  else if !truthyStr e.url then
    .error ("API \x27" ++ e.name.getD "" ++ "\x27 must have a \x27url\x27 field.")
  else
    .ok { name := e.name.getD ""
          url := e.url.getD ""
          method := strUpper (e.method.getD "GET")
          interval_seconds := e.interval_seconds.getD 60
          max_retries := e.max_retries.getD 3
          retry_backoff_seconds := e.retry_backoff_seconds.getD 5
          timeout_seconds := e.timeout_seconds.getD 10
          target_url := if truthyStr e.target_url then e.target_url else none
          enabled := e.enabled.getD true
          query_params := e.query_params }

/-- The loader loop: first failing entry aborts the load. -/
def loadAll : List RawEntry → Except String (List ApiConfig)
  | [] => .ok []
  | e :: rest =>
      match loadEntry e with
      | .error m => .error m
      | .ok a =>
          match loadAll rest with
          | .error m => .error m
          | .ok rest2 => .ok (a :: rest2)

/-- load_config from src/app/config.py (lines 33 to 86), applied to the
parsed content of the config file: None models a file whose top level has
no apis list. -/
def load_config (raw : Option (List RawEntry)) : Except String AppConfig :=
  match raw with
  | none => .error "Config file must contain a top-level \x27apis\x27 list."
  | some entries =>
      match loadAll entries with
      | .error m => .error m
      | .ok apis =>
          if apis.isEmpty then .error "No APIs configured in config.yaml."
          else .ok { apis := apis }

/-- A heap of Python dict objects: addresses below size are live. Used to
state the aliasing claim that the merge step of _fetch_with_retry copies
rather than mutates the static query_params object of the descriptor. -/
structure Store where
  size : Nat
  mem : Nat → Dict

/-- Read the dict object at an address. -/
def Store.read (s : Store) (a : Nat) : Dict := s.mem a

/-- Allocate a fresh dict object, returning the new heap and its address. -/
def Store.alloc (s : Store) (d : Dict) : Store × Nat :=
  (⟨s.size + 1, fun a => if a = s.size then d else s.mem a⟩, s.size)

/-- Overwrite the dict object at an address in place. -/
def Store.write (s : Store) (a : Nat) (d : Dict) : Store :=
  ⟨s.size, fun a2 => if a2 = a then d else s.mem a2⟩

/-- Lines 121 to 129 of src/app/jobs.py at the heap level. qpRef is the
reference held by the descriptor in its query_params field, extraRef the
reference passed by the caller; dict(x) allocates a copy, update mutates
the receiver object in place, and (params or the empty dict) allocates a
fresh empty dict when params is still None. Returns the heap after the
merge and the reference held by the params local. -/
def fetch_params_step (s : Store) (qpRef extraRef : Option Nat) :
    Store × Option Nat :=
  let s1p : Store × Option Nat :=
    match qpRef with
    | some a =>
        if (s.read a).isEmpty then (s, none)
        else
          let al := s.alloc (s.read a)
          (al.1, some al.2)
    | none => (s, none)
  match extraRef with
  | some ea =>
      if (s1p.1.read ea).isEmpty then s1p
      else
        match s1p.2 with
        | some b =>
            (s1p.1.write b (dictUpdate (s1p.1.read b) (s1p.1.read ea)), some b)
        | none =>
            let al := s1p.1.alloc []
            (al.1.write al.2 (dictUpdate (al.1.read al.2) (al.1.read ea)),
             some al.2)
  | none => s1p

/-! Supporting lemmas about the dict model. -/

theorem dlookup_dictInsert (d : Dict) (k v k2 : String) :
    dlookup (dictInsert d k v) k2 = if k = k2 then some v else dlookup d k2 := by
  induction d with
  | nil => simp [dictInsert, dlookup]
  | cons hd tl ih =>
      obtain ⟨a, b⟩ := hd
      by_cases hak : a = k
      · subst hak
        simp [dictInsert, dlookup]
        by_cases hk2 : a = k2
        · subst hk2; simp [dlookup]
        · simp [dlookup, hk2]
      · simp only [dictInsert, if_neg hak, dlookup]
        by_cases hk2 : a = k2
        · subst hk2
          have : ¬ k = a := fun h => hak h.symm
          simp [this]
        · simp [hk2, ih]

theorem dlookup_eq_none_of_not_mem (e : Dict) (k : String)
    (h : k ∉ e.map Prod.fst) : dlookup e k = none := by
  induction e with
  | nil => simp [dlookup]
  | cons hd tl ih =>
      obtain ⟨a, b⟩ := hd
      simp only [List.map_cons, List.mem_cons] at h
      push_neg at h
      simp only [dlookup]
      rw [if_neg (fun hh => h.1 hh.symm)]
      exact ih h.2

theorem dictUpdate_dlookup (e : Dict) (hnd : (e.map Prod.fst).Nodup) :
    ∀ (d : Dict) (k : String),
      dlookup (dictUpdate d e) k
        = match dlookup e k with
          | some v => some v
          | none => dlookup d k := by
  induction e with
  | nil => intro d k; simp [dictUpdate, dlookup]
  | cons hd tl ih =>
      intro d k
      obtain ⟨k0, v0⟩ := hd
      simp only [List.map_cons, List.nodup_cons] at hnd
      have step : dictUpdate d ((k0, v0) :: tl) = dictUpdate (dictInsert d k0 v0) tl := by
        simp [dictUpdate, List.foldl_cons]
      rw [step, ih hnd.2 (dictInsert d k0 v0) k, dlookup_dictInsert]
      by_cases hk : k0 = k
      · subst hk
        have hnone : dlookup tl k0 = none :=
          dlookup_eq_none_of_not_mem tl k0 hnd.1
        simp [dlookup, hnone]
      · simp [dlookup, hk]

/-! Supporting lemmas about the trace shape of the retry loop. -/

theorem attemptsOf_altTrace (p : Option Dict) (b : Int) :
    ∀ (n s : Nat), attemptsOf (altTrace p b s n) = List.range' s n := by
  intro n
  induction n with
  | zero => intro s; simp [altTrace, attemptsOf]
  | succ m ih =>
      intro s
      cases m with
      | zero => simp [altTrace, attemptsOf, List.range']
      | succ l =>
          have hm : ¬ (l + 1 = 0) := Nat.succ_ne_zero l
          simp only [altTrace, if_neg hm]
          simp only [attemptsOf, List.filterMap_cons] at *
          rw [List.range'_succ]
          simpa using ih (s + 1)

theorem sleepsOf_altTrace (p : Option Dict) (b : Int) :
    ∀ (n s : Nat), sleepsOf (altTrace p b s (n + 1)) = List.replicate n b := by
  intro n
  induction n with
  | zero => intro s; simp [altTrace, sleepsOf]
  | succ m ih =>
      intro s
      have hm : ¬ (m + 1 = 0) := Nat.succ_ne_zero m
      simp only [altTrace, if_neg hm]
      simp only [sleepsOf, List.filterMap_cons] at *
      rw [List.replicate_succ]
      simpa using ih (s + 1)

theorem fetchAux_zero (outcome : Nat → Except String α) (p : Option Dict)
    (b : Int) (M att : Nat) (le : Option String) :
    fetchAux outcome p b M att 0 le
      = ([], match le with
             | some e => .exhausted e
             | none => .assertFailed) := rfl

theorem fetchAux_step_ok {outcome : Nat → Except String α} {att : Nat} {v : α}
    (p : Option Dict) (b : Int) (M fuel : Nat) (le : Option String)
    (h : outcome att = .ok v) :
    fetchAux outcome p b M att (fuel + 1) le = ([.attempt att p], .ok v) := by
  conv_lhs => rw [fetchAux]
  simp only [h]

theorem fetchAux_step_err {outcome : Nat → Except String α} {att : Nat}
    {e : String} (p : Option Dict) (b : Int) (M fuel : Nat) (le : Option String)
    (h : outcome att = .error e) :
    fetchAux outcome p b M att (fuel + 1) le
      = (if att < M then
           (.attempt att p :: .sleep b ::
              (fetchAux outcome p b M (att + 1) fuel (some e)).1,
            (fetchAux outcome p b M (att + 1) fuel (some e)).2)
         else
           (.attempt att p :: (fetchAux outcome p b M (att + 1) fuel (some e)).1,
            (fetchAux outcome p b M (att + 1) fuel (some e)).2)) := by
  conv_lhs => rw [fetchAux]
  simp only [h]

/-- If every attempt of the remaining window fails, the loop walks the
whole window, sleeping between consecutive attempts only, and ends by
re-raising the failure of the final attempt. -/
theorem fetchAux_all_fail (outcome : Nat → Except String α) (p : Option Dict)
    (b : Int) (M : Nat) (msg : Nat → String) :
    ∀ (fuel att : Nat) (le : Option String), att + fuel = M + 1 → 1 ≤ fuel →
      (∀ j, att ≤ j → j ≤ M → outcome j = .error (msg j)) →
      fetchAux outcome p b M att fuel le
        = (altTrace p b att fuel, .exhausted (msg M)) := by
  intro fuel
  induction fuel with
  | zero => intro att le _ h1 _; omega
  | succ f ih =>
      intro att le hinv _ hfail
      have hattM : att ≤ M := by omega
      have hout : outcome att = .error (msg att) :=
        hfail att (Nat.le_refl att) hattM
      cases f with
      | zero =>
          have hEq : att = M := by omega
          subst hEq
          rw [fetchAux_step_err p b att 0 le hout, if_neg (Nat.lt_irrefl att),
            fetchAux_zero]
          simp [altTrace]
      | succ g =>
          have hlt : att < M := by omega
          have hrec := ih (att + 1) (some (msg att)) (by omega) (by omega)
            (fun j hj1 hj2 => hfail j (by omega) hj2)
          rw [fetchAux_step_err p b M (g + 1) le hout, if_pos hlt, hrec]
          have hg : ¬ (g + 1 = 0) := Nat.succ_ne_zero g
          simp [altTrace, if_neg hg]

/-- If the first n attempts of the window fail and attempt att + n
succeeds, the loop returns that value after issuing exactly the attempts
att to att + n with sleeps between consecutive ones. -/
theorem fetchAux_success (outcome : Nat → Except String α) (p : Option Dict)
    (b : Int) (M : Nat) (msg : Nat → String) (v : α) :
    ∀ (n att fuel : Nat) (le : Option String), att + fuel = M + 1 →
      att + n ≤ M →
      (∀ j, att ≤ j → j < att + n → outcome j = .error (msg j)) →
      outcome (att + n) = .ok v →
      fetchAux outcome p b M att fuel le
        = (altTrace p b att (n + 1), .ok v) := by
  intro n
  induction n with
  | zero =>
      intro att fuel le hinv hle _ hok
      cases fuel with
      | zero => omega
      | succ f =>
          simp only [Nat.add_zero] at hok
          rw [fetchAux_step_ok p b M f le hok]
          simp [altTrace]
  | succ m ih =>
      intro att fuel le hinv hle hfail hok
      have hlt : att < M := by omega
      have hout : outcome att = .error (msg att) :=
        hfail att (Nat.le_refl att) (by omega)
      cases fuel with
      | zero => omega
      | succ f =>
          have harith : att + 1 + m = att + (m + 1) := by omega
          have hrec := ih (att + 1) f (some (msg att)) (by omega) (by omega)
            (fun j hj1 hj2 => hfail j (by omega) (by omega))
            (by rw [harith]; exact hok)
          rw [fetchAux_step_err p b M f le hout, if_pos hlt, hrec]
          have hm : ¬ (m + 1 = 0) := Nat.succ_ne_zero m
          simp [altTrace, if_neg hm]

/-- With at least one attempt left or a failure already recorded, the
assert on line 153 cannot be reached in its failing state. -/
theorem fetchAux_ne_assertFailed (outcome : Nat → Except String α)
    (p : Option Dict) (b : Int) (M : Nat) :
    ∀ (fuel att : Nat) (le : Option String), 1 ≤ fuel ∨ le.isSome →
      (fetchAux outcome p b M att fuel le).2 ≠ .assertFailed := by
  intro fuel
  induction fuel with
  | zero =>
      intro att le h
      cases le with
      | none => simp at h
      | some e => rw [fetchAux_zero]; simp
  | succ f ih =>
      intro att le _
      cases hout : outcome att with
      | ok v => rw [fetchAux_step_ok p b M f le hout]; simp
      | error e =>
          rw [fetchAux_step_err p b M f le hout]
          split
          · exact ih (att + 1) (some e) (Or.inr rfl)
          · exact ih (att + 1) (some e) (Or.inr rfl)

/-- Every request issued by the retry loop carries the params value that
was merged once before the loop. -/
theorem fetchAux_params (outcome : Nat → Except String α) (p : Option Dict)
    (b : Int) (M : Nat) :
    ∀ (fuel att : Nat) (le : Option String) (i : Nat) (p2 : Option Dict),
      FetchEvent.attempt i p2 ∈ (fetchAux outcome p b M att fuel le).1 →
      p2 = p := by
  intro fuel
  induction fuel with
  | zero => intro att le i p2 h; rw [fetchAux_zero] at h; simp at h
  | succ f ih =>
      intro att le i p2 h
      cases hout : outcome att with
      | ok v =>
          rw [fetchAux_step_ok p b M f le hout] at h
          simp at h
          exact h.2
      | error e =>
          rw [fetchAux_step_err p b M f le hout] at h
          split at h
          · simp only [List.mem_cons] at h
            rcases h with h | h | h
            · injection h with h1 h2
            · exact FetchEvent.noConfusion h
            · exact ih (att + 1) (some e) i p2 h
          · simp only [List.mem_cons] at h
            rcases h with h | h
            · injection h with h1 h2
            · exact ih (att + 1) (some e) i p2 h

/-- The run-all loop leaves the state map alone and produces, in order,
one report entry per enabled job appended after the accumulator. -/
theorem runAllGo_spec (sm : StateMap) (outcomes : String → Nat → Except String α) :
    ∀ (apis : List ApiConfig) (acc : List ReportEntry),
      runAllGo sm outcomes apis acc
        = (sm, acc ++ (apis.filter fun a => a.enabled).map
            (fun a => reportEntryFor a (fetch_with_retry a (outcomes a.name) none).2)) := by
  intro apis
  induction apis with
  | nil => intro acc; simp [runAllGo]
  | cons a rest ih =>
      intro acc
      by_cases ha : a.enabled
      · simp only [runAllGo, if_pos ha, ih]
        simp [List.filter_cons, ha]
      · simp only [runAllGo, if_neg ha, ih]
        simp [List.filter_cons, ha]

/-! Concrete fixtures used by witnesses and counterexamples. -/

/-- A descriptor with two configured attempts. -/
def wCfg2 : ApiConfig :=
  { name := "job", url := "http://example", method := "GET",
    interval_seconds := 60, max_retries := 2, retry_backoff_seconds := 5,
    timeout_seconds := 10, target_url := none, enabled := true,
    query_params := some [("a", "1")] }

/-- A descriptor with three configured attempts. -/
def wCfg3 : ApiConfig :=
  { wCfg2 with max_retries := 3 }

/-- Attempt oracle that fails once and then succeeds on attempt 2. -/
def wOut12 : Nat → Except String Nat :=
  fun i => if i = 2 then .ok 7 else .error "f"

/-- Attempt oracle that always fails. -/
def wFailG : Nat → Except String Nat :=
  fun _ => .error "g"

/-! Claim theorems. -/

/-- Claim C1: for a descriptor with N configured attempts, N at least 1,
the retry executor issues attempts in order; when the first N - 1 fail
and attempt N succeeds it returns that decoded body having issued exactly
attempts 1 to N; when all attempts fail it issues exactly attempts 1 to N. -/
theorem retry_attempt_order_and_counts (cfg : ApiConfig) (extra : Option Dict)
    (outcome : Nat → Except String α) (msg : Nat → String) (v : α)
    (hN : 1 ≤ cfg.max_retries) :
    ((∀ j, 1 ≤ j → j < cfg.max_retries.toNat → outcome j = .error (msg j)) →
        outcome cfg.max_retries.toNat = .ok v →
        (fetch_with_retry cfg outcome extra).2 = .ok v ∧
        attemptsOf (fetch_with_retry cfg outcome extra).1
          = List.range' 1 cfg.max_retries.toNat) ∧
    ((∀ j, 1 ≤ j → j ≤ cfg.max_retries.toNat → outcome j = .error (msg j)) →
        attemptsOf (fetch_with_retry cfg outcome extra).1
          = List.range' 1 cfg.max_retries.toNat) := by
  have hN2 : 1 ≤ cfg.max_retries.toNat := by omega
  constructor
  · intro hfail hok
    have h1 : 1 + (cfg.max_retries.toNat - 1) = cfg.max_retries.toNat := by omega
    have hs := fetchAux_success outcome (effectiveParams cfg.query_params extra)
      cfg.retry_backoff_seconds cfg.max_retries.toNat msg v
      (cfg.max_retries.toNat - 1) 1 cfg.max_retries.toNat none
      (by omega) (by omega)
      (fun j hj1 hj2 => hfail j hj1 (by omega))
      (by rw [h1]; exact hok)
    unfold fetch_with_retry
    rw [hs]
    have h2 : cfg.max_retries.toNat - 1 + 1 = cfg.max_retries.toNat := by omega
    rw [h2]
    exact ⟨rfl, attemptsOf_altTrace _ _ _ _⟩
  · intro hfail
    have hs := fetchAux_all_fail outcome (effectiveParams cfg.query_params extra)
      cfg.retry_backoff_seconds cfg.max_retries.toNat msg
      cfg.max_retries.toNat 1 none (by omega) hN2
      (fun j hj1 hj2 => hfail j (by omega) hj2)
    unfold fetch_with_retry
    rw [hs]
    exact attemptsOf_altTrace _ _ _ _

theorem retry_attempt_order_and_counts_witness :
    (fetch_with_retry wCfg2 wOut12 none).2 = FetchResult.ok 7 ∧
    attemptsOf (fetch_with_retry wCfg2 wOut12 none).1 = [1, 2] := by
  have h := (retry_attempt_order_and_counts wCfg2 none wOut12 (fun _ => "f") 7
      (by decide)).1
    (fun j hj1 hj2 => by
      have hj2b : j < 2 := hj2
      have hj : j = 1 := by omega
      subst hj
      rfl)
    rfl
  exact ⟨h.1, by rw [h.2]; rfl⟩

/-- Claim C2: when all configured attempts fail (descriptor invariant of
at least one attempt assumed), the retry executor fails with the
exhaustion outcome carrying the message of the final attempt, and
exhaustion is its only failure outcome: every result is a decoded body
or an exhaustion. -/
theorem retry_exhaustion_error (cfg : ApiConfig) (extra : Option Dict)
    (outcome : Nat → Except String α) (msg : Nat → String)
    (hN : 1 ≤ cfg.max_retries) :
    ((∀ j, 1 ≤ j → j ≤ cfg.max_retries.toNat → outcome j = .error (msg j)) →
        (fetch_with_retry cfg outcome extra).2
          = .exhausted (msg cfg.max_retries.toNat)) ∧
    ((∃ v, (fetch_with_retry cfg outcome extra).2 = .ok v) ∨
     (∃ e, (fetch_with_retry cfg outcome extra).2 = .exhausted e)) := by
  have hN2 : 1 ≤ cfg.max_retries.toNat := by omega
  constructor
  · intro hfail
    have hs := fetchAux_all_fail outcome (effectiveParams cfg.query_params extra)
      cfg.retry_backoff_seconds cfg.max_retries.toNat msg
      cfg.max_retries.toNat 1 none (by omega) hN2
      (fun j hj1 hj2 => hfail j (by omega) hj2)
    unfold fetch_with_retry
    rw [hs]
  · have hne : (fetch_with_retry cfg outcome extra).2 ≠ .assertFailed := by
      unfold fetch_with_retry
      exact fetchAux_ne_assertFailed outcome _ _ _ cfg.max_retries.toNat 1 none
        (Or.inl hN2)
    cases hval : (fetch_with_retry cfg outcome extra).2 with
    | ok v => exact Or.inl ⟨v, rfl⟩
    | exhausted e => exact Or.inr ⟨e, rfl⟩
    | assertFailed => exact absurd hval hne

theorem retry_exhaustion_error_witness :
    (fetch_with_retry wCfg2 wFailG none).2 = FetchResult.exhausted "g" := by
  have h := (retry_exhaustion_error wCfg2 none wFailG (fun _ => "g")
      (by decide)).1
    (fun j hj1 hj2 => rfl)
  exact h

/-- Claim C5: when the fetch makes N failing attempts and exhausts the
descriptor, the trace alternates strictly between requests and backoff
sleeps, with exactly N - 1 sleeps, each of exactly the configured
backoff duration, one between each pair of consecutive attempts and none
after the last attempt. -/
theorem retry_backoff_count (cfg : ApiConfig) (extra : Option Dict)
    (outcome : Nat → Except String α) (msg : Nat → String)
    (hN : 1 ≤ cfg.max_retries)
    (hfail : ∀ j, 1 ≤ j → j ≤ cfg.max_retries.toNat → outcome j = .error (msg j)) :
    (fetch_with_retry cfg outcome extra).1
      = altTrace (effectiveParams cfg.query_params extra)
          cfg.retry_backoff_seconds 1 cfg.max_retries.toNat ∧
    sleepsOf (fetch_with_retry cfg outcome extra).1
      = List.replicate (cfg.max_retries.toNat - 1) cfg.retry_backoff_seconds := by
  have hN2 : 1 ≤ cfg.max_retries.toNat := by omega
  have hs := fetchAux_all_fail outcome (effectiveParams cfg.query_params extra)
    cfg.retry_backoff_seconds cfg.max_retries.toNat msg
    cfg.max_retries.toNat 1 none (by omega) hN2
    (fun j hj1 hj2 => hfail j (by omega) hj2)
  constructor
  · unfold fetch_with_retry
    rw [hs]
  · unfold fetch_with_retry
    rw [hs]
    have h2 : cfg.max_retries.toNat = cfg.max_retries.toNat - 1 + 1 := by omega
    rw [h2]
    have := sleepsOf_altTrace (effectiveParams cfg.query_params extra)
      cfg.retry_backoff_seconds (cfg.max_retries.toNat - 1) 1
    simpa using this

theorem retry_backoff_count_witness :
    sleepsOf (fetch_with_retry wCfg3 wFailG none).1 = [5, 5] := by
  have h := retry_backoff_count wCfg3 none wFailG (fun _ => "g") (by decide)
    (fun j hj1 hj2 => rfl)
  rw [h.2]
  rfl

/-- Claim C10: with the precondition of at least one configured attempt,
the assert that the loop recorded a failure before re-raising is always
valid; the failing-assert outcome is unreachable. -/
theorem retry_assert_safe (cfg : ApiConfig) (extra : Option Dict)
    (outcome : Nat → Except String α) (h : 1 ≤ cfg.max_retries) :
    (fetch_with_retry cfg outcome extra).2 ≠ .assertFailed := by
  unfold fetch_with_retry
  exact fetchAux_ne_assertFailed outcome _ _ _ cfg.max_retries.toNat 1 none
    (Or.inl (by omega))

theorem retry_assert_safe_witness :
    (fetch_with_retry wCfg2 wFailG none).2 ≠ FetchResult.assertFailed :=
  retry_assert_safe wCfg2 none wFailG (by decide)

/-- Claim C6: the effective query parameters are the static descriptor
parameters overridden by the caller supplied extras, the extra value
winning on every key collision; the documented merging example holds;
and every request the retry executor issues carries exactly this merged
value. -/
theorem effective_params_merge :
    (∀ (st ex : Dict) (k : String), st ≠ [] → (ex.map Prod.fst).Nodup →
        ∃ d, effectiveParams (some st) (some ex) = some d ∧
          dlookup d k = (match dlookup ex k with
                         | some v => some v
                         | none => dlookup st k)) ∧
    effectiveParams (some [("a", "1")]) (some [("a", "2"), ("b", "3")])
      = some [("a", "2"), ("b", "3")] ∧
    (∀ (α : Type) (cfg : ApiConfig) (extra : Option Dict)
        (outcome : Nat → Except String α) (i : Nat) (p2 : Option Dict),
        FetchEvent.attempt i p2 ∈ (fetch_with_retry cfg outcome extra).1 →
        p2 = effectiveParams cfg.query_params extra) := by
  refine ⟨?_, by decide, ?_⟩
  · intro st ex k hst hnd
    have hstE : st.isEmpty = false := by
      cases st with
      | nil => exact absurd rfl hst
      | cons h t => rfl
    by_cases hex : ex = []
    · subst hex
      refine ⟨st, ?_, ?_⟩
      · simp [effectiveParams, truthyDict, hstE]
      · simp [dlookup]
    · have hexE : ex.isEmpty = false := by
        cases ex with
        | nil => exact absurd rfl hex
        | cons h t => rfl
      refine ⟨dictUpdate st ex, ?_, ?_⟩
      · simp [effectiveParams, truthyDict, hstE, hexE]
      · exact dictUpdate_dlookup ex hnd st k
  · intro α cfg extra outcome i p2 h
    exact fetchAux_params outcome _ _ _ cfg.max_retries.toNat 1 none i p2 h

theorem effective_params_merge_witness :
    dlookup [("a", "2"), ("b", "3")] "a" = some "2" := by
  obtain ⟨d, hd, hl⟩ := effective_params_merge.1 [("a", "1")]
    [("a", "2"), ("b", "3")] "a" (by decide) (by decide)
  have hd2 : d = [("a", "2"), ("b", "3")] := by
    rw [effective_params_merge.2.1] at hd
    injection hd with h
    exact h.symm
  rw [← hd2, hl]
  decide

/-- Claim C4: one iteration of the scheduled loop body increments
run_count by exactly 1 and sets last_run to the iteration start tick
regardless of outcome; on any failure of the try block (fetch
exhaustion, transform error, or forward failure) it records the failure
message as last_error leaving last_success unchanged; on full success it
sets last_success and clears last_error. -/
theorem run_loop_body_status (st : ApiJobState) (now1 now2 : Nat)
    (fetchR : FetchResult α) (proc : Option (α → Except String α))
    (target : Option String) (fwd : Except String Unit) :
    (run_loop_body st now1 (runTry fetchR proc target fwd) now2).run_count
        = st.run_count + 1 ∧
    (run_loop_body st now1 (runTry fetchR proc target fwd) now2).last_run
        = some now1 ∧
    (∀ m, runTry fetchR proc target fwd = .error m →
        (run_loop_body st now1 (runTry fetchR proc target fwd) now2).last_error
            = some m ∧
        (run_loop_body st now1 (runTry fetchR proc target fwd) now2).last_success
            = st.last_success) ∧
    (runTry fetchR proc target fwd = .ok () →
        (run_loop_body st now1 (runTry fetchR proc target fwd) now2).last_success
            = some now2 ∧
        (run_loop_body st now1 (runTry fetchR proc target fwd) now2).last_error
            = none) := by
  cases htry : runTry fetchR proc target fwd with
  | ok u =>
      cases u
      refine ⟨rfl, rfl, ?_, ?_⟩
      · intro m hm
        exact Except.noConfusion hm
      · intro _
        exact ⟨rfl, rfl⟩
  | error m0 =>
      refine ⟨rfl, rfl, ?_, ?_⟩
      · intro m hm
        injection hm with h2
        subst h2
        exact ⟨rfl, rfl⟩
      · intro hm
        exact Except.noConfusion hm

/-- Fixture state for the loop body witness. -/
def wSt : ApiJobState :=
  { last_run := some 1, last_success := some 3, last_error := none,
    run_count := 7 }

theorem run_loop_body_status_witness :
    (run_loop_body wSt 5
        (runTry (FetchResult.exhausted "boom" : FetchResult Nat) none none
          (.ok ())) 6).run_count = 8 ∧
    (run_loop_body wSt 5
        (runTry (FetchResult.exhausted "boom" : FetchResult Nat) none none
          (.ok ())) 6).last_error = some "boom" ∧
    (run_loop_body wSt 5
        (runTry (FetchResult.exhausted "boom" : FetchResult Nat) none none
          (.ok ())) 6).last_success = some 3 := by
  have h := run_loop_body_status wSt 5 6
    (FetchResult.exhausted "boom" : FetchResult Nat) none none (.ok ())
  exact ⟨h.1, (h.2.2.1 "boom" rfl).1, (h.2.2.1 "boom" rfl).2⟩

/-- Disabled descriptor fixture for the C3 counterexample. -/
def wCfgDisabled : ApiConfig :=
  { name := "x", url := "http://example", method := "GET",
    interval_seconds := 60, max_retries := 1, retry_backoff_seconds := 5,
    timeout_seconds := 10, target_url := none, enabled := false,
    query_params := none }

/-- Claim C3 counterexample: the single job trigger looks the job up by
name only and never consults the enabled flag, so a disabled job is
found and executed; here its fetch fails and the trigger reports the
fetch failure, not the not-found outcome the claim requires. -/
theorem run_job_once_disabled_executes :
    (run_job_once [wCfgDisabled] [] "x" none
        (fun _ => (Except.error "boom" : Except String Unit)) none
        (Except.ok ()) 0).1
      = RunOnceResult.fetchError "boom" := by decide

/-- Claim C3 amended: for every job name matching no descriptor at all,
the single job trigger returns the not-found outcome and leaves the
whole state map unchanged; a disabled descriptor whose name matches is
found and run like an enabled one. -/
theorem run_job_once_unknown_name (apis : List ApiConfig) (sm : StateMap)
    (jobName : String) (extra : Option Dict) (outcome : Nat → Except String α)
    (proc : Option (α → Except String α)) (fwd : Except String Unit) (now : Nat)
    (h : ∀ a ∈ apis, a.name ≠ jobName) :
    run_job_once apis sm jobName extra outcome proc fwd now
      = (.notFound ("Job \x27" ++ jobName ++ "\x27 not found"), sm) := by
  have hfind : apis.find? (fun a => a.name == jobName) = none := by
    rw [List.find?_eq_none]
    intro a ha
    simp only [beq_iff_eq]
    exact h a ha
  simp only [run_job_once, hfind]

theorem run_job_once_unknown_name_witness :
    run_job_once [wCfg2] [] "nope" none
        (fun _ => (Except.ok 0 : Except String Nat)) none (.ok ()) 5
      = (RunOnceResult.notFound "Job \x27nope\x27 not found", []) :=
  run_job_once_unknown_name [wCfg2] [] "nope" none _ none (.ok ()) 5
    (by decide)

/-- Claim C7: the trigger-all operation walks exactly the enabled
descriptors in order, produces one report entry per enabled job with its
name and an ok or error outcome carrying the error message on failure,
never escapes with an exception (it is a total function into a report),
a failing job does not abort the remaining ones, and the state map is
returned untouched. -/
theorem run_all_report (apis : List ApiConfig) (sm : StateMap)
    (outcomes : String → Nat → Except String α) :
    (run_all_jobs_once apis sm outcomes).1 = sm ∧
    (run_all_jobs_once apis sm outcomes).2
      = (apis.filter fun a => a.enabled).map
          (fun a => reportEntryFor a (fetch_with_retry a (outcomes a.name) none).2) ∧
    ∀ r ∈ (run_all_jobs_once apis sm outcomes).2,
      (r.status = "ok" ∧ r.error = none) ∨
      (r.status = "error" ∧ ∃ m, r.error = some m) := by
  have hspec := runAllGo_spec sm outcomes apis []
  refine ⟨?_, ?_, ?_⟩
  · unfold run_all_jobs_once
    rw [hspec]
  · unfold run_all_jobs_once
    rw [hspec]
    simp
  · intro r hr
    unfold run_all_jobs_once at hr
    rw [hspec] at hr
    simp only [List.nil_append, List.mem_map] at hr
    obtain ⟨a, ha, rfl⟩ := hr
    cases (fetch_with_retry a (outcomes a.name) none).2 with
    | ok v => exact Or.inl ⟨rfl, rfl⟩
    | exhausted e => exact Or.inr ⟨rfl, e, rfl⟩
    | assertFailed => exact Or.inr ⟨rfl, "", rfl⟩

/-- Enabled job whose fetch succeeds, for the C7 witness. -/
def wCfgOk : ApiConfig :=
  { wCfg2 with name := "good" }

/-- Enabled job whose fetch fails, for the C7 witness. -/
def wCfgBad : ApiConfig :=
  { wCfg2 with name := "bad" }

/-- Per-job outcome oracle for the C7 witness. -/
def wOutcomes : String → Nat → Except String Nat :=
  fun n _ => if n = "good" then .ok 1 else .error "x"

/-- Expected ok report entry for the C7 witness. -/
def wEntryOk : ReportEntry :=
  { name := "good", url := "http://example", status := "ok", error := none }

/-- Expected error report entry for the C7 witness. -/
def wEntryBad : ReportEntry :=
  { name := "bad", url := "http://example", status := "error",
    error := some "x" }

theorem run_all_report_witness :
    (run_all_jobs_once [wCfgOk, wCfgDisabled, wCfgBad] [] wOutcomes).1
        = ([] : StateMap) ∧
    (run_all_jobs_once [wCfgOk, wCfgDisabled, wCfgBad] [] wOutcomes).2
      = [wEntryOk, wEntryBad] ∧
    ((wEntryOk.status = "ok" ∧ wEntryOk.error = none) ∨
     (wEntryOk.status = "error" ∧ ∃ m, wEntryOk.error = some m)) := by
  have h := run_all_report [wCfgOk, wCfgDisabled, wCfgBad] [] wOutcomes
  refine ⟨h.1, ?_, ?_⟩
  · rw [h.2.1]
    rfl
  · exact h.2.2 wEntryOk (by decide)

/-- Config entry with a name collision, zero max_retries and zero
interval, for the C8 counterexample. -/
def wRawBad : RawEntry :=
  { name := some "x", url := some "u", method := none,
    interval_seconds := some 0, max_retries := some 0,
    retry_backoff_seconds := none, timeout_seconds := none,
    target_url := none, enabled := none, query_params := none }

/-- Second config entry with the same name, for the C8 counterexample. -/
def wRawDup : RawEntry :=
  { name := some "x", url := some "v", method := none,
    interval_seconds := none, max_retries := none,
    retry_backoff_seconds := none, timeout_seconds := none,
    target_url := none, enabled := none, query_params := none }

/-- Descriptor the loader builds from wRawBad. -/
def wApiBad : ApiConfig :=
  { name := "x", url := "u", method := "GET", interval_seconds := 0,
    max_retries := 0, retry_backoff_seconds := 5, timeout_seconds := 10,
    target_url := none, enabled := true, query_params := none }

/-- Descriptor the loader builds from wRawDup. -/
def wApiDup : ApiConfig :=
  { name := "x", url := "v", method := "GET", interval_seconds := 60,
    max_retries := 3, retry_backoff_seconds := 5, timeout_seconds := 10,
    target_url := none, enabled := true, query_params := none }

/-- Claim C8 counterexample: the loader accepts a configuration whose
two entries share one name, whose first entry has zero max attempts and
a zero interval; no part of the claimed descriptor invariant is checked
at load time. -/
theorem load_config_accepts_invalid :
    load_config (some [wRawBad, wRawDup])
        = Except.ok { apis := [wApiBad, wApiDup] } ∧
    wApiBad.name = wApiDup.name ∧
    wApiBad.max_retries < 1 ∧
    wApiBad.interval_seconds ≤ 0 :=
  ⟨rfl, rfl, by decide, by decide⟩

/-- A successful loadEntry yields a descriptor with a non-empty name and
a non-empty url. -/
theorem loadEntry_ok_fields {e : RawEntry} {a : ApiConfig}
    (h : loadEntry e = .ok a) : a.name ≠ "" ∧ a.url ≠ "" := by
  unfold loadEntry at h
  by_cases h1 : truthyStr e.name = true
  case neg =>
    have hb : truthyStr e.name = false := by
      cases hx : truthyStr e.name with
      | false => rfl
      | true => exact absurd hx h1
    rw [hb] at h
    simp at h
  case pos =>
  by_cases h2 : truthyStr e.url = true
  case neg =>
    have hb : truthyStr e.url = false := by
      cases hx : truthyStr e.url with
      | false => rfl
      | true => exact absurd hx h2
    rw [h1, hb] at h
    simp at h
  case pos =>
    rw [h1, h2] at h
    simp only [Bool.not_true, Bool.false_eq_true, if_false] at h
    injection h with h3
    subst h3
    constructor
    · show e.name.getD "" ≠ ""
      cases hn : e.name with
      | none => rw [hn] at h1; simp [truthyStr] at h1
      | some s =>
          simp only [Option.getD_some]
          intro hs
          rw [hn, hs] at h1
          simp [truthyStr] at h1
          exact absurd h1 (by decide)
    · show e.url.getD "" ≠ ""
      cases hn : e.url with
      | none => rw [hn] at h2; simp [truthyStr] at h2
      | some s =>
          simp only [Option.getD_some]
          intro hs
          rw [hn, hs] at h2
          simp [truthyStr] at h2
          exact absurd h2 (by decide)

/-- Every descriptor of a successful loadAll has a non-empty name and
url. -/
theorem loadAll_ok_fields :
    ∀ (es : List RawEntry) (apis : List ApiConfig), loadAll es = .ok apis →
      ∀ a ∈ apis, a.name ≠ "" ∧ a.url ≠ "" := by
  intro es
  induction es with
  | nil =>
      intro apis h a ha
      simp only [loadAll] at h
      injection h with h2
      subst h2
      simp at ha
  | cons e rest ih =>
      intro apis h a ha
      simp only [loadAll] at h
      cases he : loadEntry e with
      | error m => rw [he] at h; exact Except.noConfusion h
      | ok a0 =>
          rw [he] at h
          cases hr : loadAll rest with
          | error m => rw [hr] at h; exact Except.noConfusion h
          | ok rest2 =>
              rw [hr] at h
              injection h with h2
              subst h2
              rcases List.mem_cons.mp ha with rfl | hmem
              · exact loadEntry_ok_fields he
              · exact ih rest2 hr a hmem

/-- Claim C8 amended: a successful load guarantees only that the apis
list exists and is non-empty and that every entry carried a truthy name
and url (so every loaded descriptor has a non-empty name and url); name
uniqueness, max_retries at least 1 and a positive interval are not
enforced at load time. -/
theorem load_config_guarantees (raw : Option (List RawEntry))
    (cfg : AppConfig) (h : load_config raw = .ok cfg) :
    cfg.apis ≠ [] ∧ ∀ a ∈ cfg.apis, a.name ≠ "" ∧ a.url ≠ "" := by
  cases raw with
  | none => exact Except.noConfusion h
  | some entries =>
      simp only [load_config] at h
      split at h
      · exact Except.noConfusion h
      · rename_i apis hall
        by_cases hemp : apis.isEmpty = true
        · rw [if_pos hemp] at h
          exact Except.noConfusion h
        · rw [if_neg hemp] at h
          injection h with h2
          subst h2
          constructor
          · intro hnil
            have hnil2 : apis = [] := hnil
            rw [hnil2] at hemp
            exact hemp rfl
          · exact loadAll_ok_fields entries apis hall

/-- A well-formed config entry for the C8 witness. -/
def wRawGood : RawEntry :=
  { name := some "x", url := some "u", method := none,
    interval_seconds := none, max_retries := none,
    retry_backoff_seconds := none, timeout_seconds := none,
    target_url := none, enabled := none, query_params := none }

/-- The descriptor the loader builds from wRawGood. -/
def wApiGood : ApiConfig :=
  { name := "x", url := "u", method := "GET", interval_seconds := 60,
    max_retries := 3, retry_backoff_seconds := 5, timeout_seconds := 10,
    target_url := none, enabled := true, query_params := none }

theorem load_config_guarantees_witness :
    ({ apis := [wApiGood] } : AppConfig).apis ≠ [] ∧
    ∀ a ∈ ({ apis := [wApiGood] } : AppConfig).apis,
      a.name ≠ "" ∧ a.url ≠ "" :=
  load_config_guarantees (some [wRawGood]) { apis := [wApiGood] } rfl

/-- Claim C9: the parameter merge step of _fetch_with_retry never writes
through the reference held in the descriptor query_params field: the
dict object at that address reads the same after the merge as before,
for every caller supplied extra reference. -/
theorem fetch_params_no_mutation (s : Store) (a : Nat) (extraRef : Option Nat)
    (ha : a < s.size) :
    ((fetch_params_step s (some a) extraRef).1).read a = s.read a := by
  have hne : a ≠ s.size := Nat.ne_of_lt ha
  by_cases hemp : s.mem a = []
  · cases extraRef with
    | none => simp [fetch_params_step, Store.read, hemp]
    | some ea =>
        by_cases hee : s.mem ea = []
        · simp [fetch_params_step, Store.read, hemp, hee]
        · simp [fetch_params_step, Store.read, Store.alloc, Store.write,
            hemp, hee, hne]
  · cases extraRef with
    | none =>
        simp [fetch_params_step, Store.read, Store.alloc, hemp, hne]
    | some ea =>
        by_cases hee : (if ea = s.size then s.mem a else s.mem ea) = []
        · simp [fetch_params_step, Store.read, Store.alloc, hemp, hee, hne]
        · simp [fetch_params_step, Store.read, Store.alloc, Store.write,
            hemp, hee, hne]

/-- Fixture heap for the C9 witness: address 0 holds the static params,
address 1 the extra params. -/
def wStore : Store :=
  { size := 2,
    mem := fun n => if n = 0 then [("a", "1")] else [("a", "2"), ("b", "3")] }

theorem fetch_params_no_mutation_witness :
    ((fetch_params_step wStore (some 0) (some 1)).1).read 0 = [("a", "1")] := by
  have h := fetch_params_no_mutation wStore 0 (some 1) (by decide)
  rw [h]
  rfl

end FinData
